import Mathlib

/-!
Verification development for the `ai_breadcrumb_automated_development`
repository.

Part I embeds the three C demo programs
(`src/examples/demo_block_comments.c`, `src/examples/demo_breadcrumb.c`,
`src/examples/distributed_ai_example.c`) as pure Lean functions.  Standard
output and standard error are modelled as lists of the strings passed to
`printf` / `fprintf`; the C `int` return value is modelled as `Int`; a C
pointer that may be `NULL` is modelled as an `Option`, and dereferencing it
is an explicit fallible operation (`Except Unit`), so a `NULL` dereference
would surface as `.error ()`.

Part II models the annotation-extraction / validation engine that the
specification describes.  That engine is code of this repository that is
not present under `src/` (the demo files only exhibit the comment format it
would consume), so every definition of Part II is modelled from the
specification's own words, as indicated by its doc comment.
-/

namespace DemoBlockComments

/-- Embeds `init_issue_tracking` from `demo_block_comments.c`: prints one
line and returns 0. -/
def init_issue_tracking : List String × Int :=
  (["Issue tracking integration initialized\n"], 0)

/-- Embeds `handle_edge_case` from `demo_block_comments.c`: prints one line
and returns 0. -/
def handle_edge_case : List String × Int :=
  (["Edge case handled with human override\n"], 0)

/-- Embeds `test_block_comments` from `demo_block_comments.c`: prints one
line, returns nothing. -/
def test_block_comments : List String :=
  ["Block comment parsing works!\n"]

/-- Embeds `main` from `demo_block_comments.c`: prints a banner, runs the
three demo functions, prints a footer and returns the literal 0. -/
def main : List String × Int :=
  (["Enhanced Breadcrumb Parser Test\n", "================================\n\n"]
      ++ init_issue_tracking.1
      ++ handle_edge_case.1
      ++ test_block_comments
      ++ ["\nAll tests passed!\n"], 0)

end DemoBlockComments

namespace DistributedAI

/-- Embeds `system_init` from `distributed_ai_example.c`: prints one line. -/
def system_init : List String :=
  ["System initialized\n"]

/-- Embeds `network_send` from `distributed_ai_example.c`: its body is the
single statement `return 0;`, so it ignores both arguments. -/
def network_send (data : Option (List Int)) (len : Nat) : Int := 0

/-- Embeds `main` from `distributed_ai_example.c`: prints two lines, calls
`system_init`, and returns the literal 0. -/
def main : List String × Int :=
  (["Distributed AI Development Example\n",
    "Demonstrating breadcrumb usage for multi-agent coordination\n"]
      ++ system_init, 0)

end DistributedAI

namespace DemoBreadcrumb

/-- Embeds `init_kernel_memory` from `demo_breadcrumb.c`: prints two lines
and returns 0. -/
def init_kernel_memory : List String × Int :=
  (["Initializing kernel memory subsystem...\n",
    "Kernel memory initialized successfully\n"], 0)

/-- Embeds `init_gpu_pipeline` from `demo_breadcrumb.c`: prints two lines
and returns 0 (the shader-compilation call is commented out in the C
source). -/
def init_gpu_pipeline : List String × Int :=
  (["Initializing GPU pipeline...\n",
    "Basic GPU initialization complete\n"], 0)

/-- Models reading the string behind a possibly-NULL `const char *`: on a
NULL pointer this faults (`.error ()`), which is how a null-pointer
dereference surfaces in the embedding. -/
def derefCStr : Option String → Except Unit String
  | none => .error ()
  | some s => .ok s

/-- Embeds `handle_error` from `demo_breadcrumb.c`: a guarded NULL check
prints a fixed message to stderr and returns; otherwise the pointer is
dereferenced and the message is printed to stderr. -/
def handle_error (message : Option String) : Except Unit (List String) :=
  match message with
  | none => .ok ["Error: NULL error message\n"]
  | some _ => (derefCStr message).map (fun s => ["Error: " ++ s ++ "\n"])

/-- Embeds `run_tests` from `demo_breadcrumb.c`: runs the three tests in
order, short-circuiting with return value 1 on a failing init; the result
is (stdout, stderr, return value). -/
def run_tests : Except Unit (List String × List String × Int) :=
  let o0 := ["\n=== Running Demo Tests ===\n", "Test 1: Kernel Memory Init... "]
  let k := init_kernel_memory
  let o1 := o0 ++ k.1
  if k.2 = 0 then
    let o2 := o1 ++ ["PASS\n", "Test 2: GPU Pipeline Init... "]
    let g := init_gpu_pipeline
    let o3 := o2 ++ g.1
    if g.2 = 0 then
      let o4 := o3 ++ ["PASS (with TODOs)\n", "Test 3: Error Handling... "]
      match handle_error (some "Test error message"), handle_error none with
      | .ok e1, .ok e2 =>
          .ok (o4 ++ ["PASS\n", "\nAll tests completed!\n"], e1 ++ e2, 0)
      | .error u, _ => .error u
      | _, .error u => .error u
    else .ok (o3 ++ ["FAIL\n"], [], 1)
  else .ok (o1 ++ ["FAIL\n"], [], 1)

/-- Embeds `main` from `demo_breadcrumb.c`: prints a banner and returns the
value of `run_tests`. -/
def main : Except Unit (List String × List String × Int) :=
  let banner := ["AI Breadcrumb Demo Program\n", "==========================\n\n",
    "This program demonstrates the AI breadcrumb system.\n",
    "Each function has AI metadata comments that track:\n",
    "  - Development phase and status\n",
    "  - Implementation strategy\n",
    "  - Errors and fixes\n",
    "  - Cross-references to other systems\n\n"]
  match run_tests with
  | .ok (so, se, r) => .ok (banner ++ so, se, r)
  | .error u => .error u

end DemoBreadcrumb

/-- C1: each of the three demo programs is self-contained: its `main`
prints messages to standard output and terminates returning 0; in
`demo_breadcrumb.c`, `main` returns the value of `run_tests`, which is 0
because `init_kernel_memory` and `init_gpu_pipeline` both return 0. -/
theorem demo_programs_self_contained :
    (∃ o, DemoBlockComments.main = (o, 0) ∧ o ≠ [])
    ∧ (∃ o, DistributedAI.main = (o, 0) ∧ o ≠ [])
    ∧ DemoBreadcrumb.init_kernel_memory.2 = 0
    ∧ DemoBreadcrumb.init_gpu_pipeline.2 = 0
    ∧ (∃ so se, DemoBreadcrumb.run_tests = .ok (so, se, 0))
    ∧ (∃ so se, DemoBreadcrumb.main = .ok (so, se, 0) ∧ so ≠ []) := by
  refine ⟨⟨_, rfl, by decide⟩, ⟨_, rfl, by decide⟩, rfl, rfl, ⟨_, _, rfl⟩, ⟨_, _, rfl, by decide⟩⟩

/-- C9: `handle_error` in `demo_breadcrumb.c` never dereferences a null
pointer: on `NULL` it prints "Error: NULL error message" to stderr and
returns, otherwise it prints the message to stderr; the call
`handle_error(NULL)` inside `run_tests` completes without fault. -/
theorem handle_error_no_null_deref :
    (∀ m, ∃ out, DemoBreadcrumb.handle_error m = .ok out)
    ∧ DemoBreadcrumb.handle_error none = .ok ["Error: NULL error message\n"]
    ∧ (∀ s, DemoBreadcrumb.handle_error (some s) = .ok ["Error: " ++ s ++ "\n"])
    ∧ (∃ so se, DemoBreadcrumb.run_tests = .ok (so, se, 0)
        ∧ "Error: NULL error message\n" ∈ se) := by
  refine ⟨fun m => ?_, rfl, fun s => rfl, ⟨_, _, rfl, by decide⟩⟩
  cases m with
  | none => exact ⟨_, rfl⟩
  | some s => exact ⟨_, rfl⟩

/-- C10: `network_send` in `distributed_ai_example.c` returns 0 for every
`data` pointer (including NULL) and every `len`; its return value is
independent of both arguments. -/
theorem network_send_returns_zero :
    (∀ d l, DistributedAI.network_send d l = 0)
    ∧ (∀ d₁ l₁ d₂ l₂,
        DistributedAI.network_send d₁ l₁ = DistributedAI.network_send d₂ l₂) :=
  ⟨fun _ _ => rfl, fun _ _ _ _ => rfl⟩

namespace Breadcrumb

/-- Modelled from the spec: severity levels of a `Diagnostic` (section 3,
"Diagnostic: a (severity, message, source location) triple"). -/
inductive Severity
  | error
  | warning
  | info
deriving DecidableEq, Repr

/-- Modelled from the spec: a `Diagnostic` is a (severity, message, source
location) triple; the location is a line number within the scanned file. -/
structure Diagnostic where
  severity : Severity
  message : String
  line : Nat
deriving DecidableEq, Repr

/-- Modelled from the spec: one line of a `SourceUnit`, pre-classified the
way the Extractor's boundary-detection contract distinguishes lines
(section 4.1; section 6 states the boundary rules, not a specific
language's grammar, are the contract).  The payload of `comment`, `blockOpen`
and `blockClose` is the text of the line with the comment marker stripped. -/
inductive Line
  | comment (s : String)
  | blank
  | code (s : String)
  | blockOpen (s : String)
  | blockClose (s : String)
deriving DecidableEq, Repr

/-- Modelled from the spec: the marker-stripped text a line contributes when
it lies inside a block-comment span. -/
def Line.text : Line → String
  | .comment s => s
  | .blank => ""
  | .code s => s
  | .blockOpen s => s
  | .blockClose s => s

/-- Modelled from the spec: a `CommentBlock` is a contiguous run of
same-style line comments or one block-comment span, with its start line and
its marker-stripped content lines (section 3). -/
structure CommentBlock where
  startLine : Nat
  content : List String
deriving DecidableEq, Repr

/-- Modelled from the spec: the Extractor's scanning state — either
accumulating a run of `//` lines (the run's start line and its reversed
content; an empty list means no open run) or inside a `/* ... */` span
(section 9 recommends exactly such a two-state machine). -/
inductive ExtractState
  | run (start : Nat) (acc : List String)
  | inBlock (start : Nat) (acc : List String)
deriving DecidableEq, Repr

/-- Modelled from the spec: closing a `//` run emits one `CommentBlock`
when the run is nonempty. -/
def flushRun (start : Nat) (acc : List String) : List CommentBlock :=
  match acc with
  | [] => []
  | _ => [⟨start, acc.reverse⟩]

/-- Modelled from the spec: the Extractor's single forward pass (section
4.1).  Consecutive `//` lines form one block; any non-comment line ends the
current run; a `/* ... */` span forms one block regardless of internal
blank lines; a `/*` with no matching `*/` before end-of-file yields a
Diagnostic(severity=error, "unterminated block comment") and extraction
stops for that file. -/
def extractGo : List Line → Nat → ExtractState → List CommentBlock × List Diagnostic
  | [], _, .run start acc => (flushRun start acc, [])
  | [], _, .inBlock bs _ => ([], [⟨Severity.error, "unterminated block comment", bs⟩])
  | .comment s :: rest, i, .run start acc =>
      match acc with
      | [] => extractGo rest (i+1) (.run i [s])
      | a :: as => extractGo rest (i+1) (.run start (s :: a :: as))
  | .blank :: rest, i, .run start acc =>
      let p := extractGo rest (i+1) (.run 0 [])
      (flushRun start acc ++ p.1, p.2)
  | .code _ :: rest, i, .run start acc =>
      let p := extractGo rest (i+1) (.run 0 [])
      (flushRun start acc ++ p.1, p.2)
  | .blockClose _ :: rest, i, .run start acc =>
      let p := extractGo rest (i+1) (.run 0 [])
      (flushRun start acc ++ p.1, p.2)
  | .blockOpen s :: rest, i, .run start acc =>
      let p := extractGo rest (i+1) (.inBlock i [s])
      (flushRun start acc ++ p.1, p.2)
  | .blockClose t :: rest, i, .inBlock bs acc =>
      let p := extractGo rest (i+1) (.run 0 [])
      (⟨bs, (t :: acc).reverse⟩ :: p.1, p.2)
  | l :: rest, i, .inBlock bs acc =>
      extractGo rest (i+1) (.inBlock bs (l.text :: acc))

/-- Modelled from the spec: the Extractor entry point — scan a file's
classified lines from line 0 with no open run (section 4.1).  The spec's
drop of pure-prose blocks is performed downstream by the Field Parser's
relevance decision, which is observationally equivalent. -/
def extract (ls : List Line) : List CommentBlock × List Diagnostic :=
  extractGo ls 0 (.run 0 [])

/-- Two extractor states that produce the same number of blocks on any
remaining input: two open runs agreeing on emptiness, or two block spans. -/
def stateCompat : ExtractState → ExtractState → Prop
  | .run _ a₁, .run _ a₂ => a₁ = [] ↔ a₂ = []
  | .inBlock _ _, .inBlock _ _ => True
  | _, _ => False

theorem flushRun_length_congr (a₁ a₂ : List String) (s₁ s₂ : Nat)
    (h : a₁ = [] ↔ a₂ = []) :
    (flushRun s₁ a₁).length = (flushRun s₂ a₂).length := by
  cases a₁ with
  | nil =>
    have h₂ : a₂ = [] := h.mp rfl
    subst h₂; simp [flushRun]
  | cons x xs =>
    cases a₂ with
    | nil => exact absurd (h.mpr rfl) (by simp)
    | cons y ys => simp [flushRun]

theorem extractGo_length_congr :
    ∀ (post : List Line) (st₁ st₂ : ExtractState) (i₁ i₂ : Nat),
      stateCompat st₁ st₂ →
      (extractGo post i₁ st₁).1.length = (extractGo post i₂ st₂).1.length := by
  intro post
  induction post with
  | nil =>
    intro st₁ st₂ i₁ i₂ h
    cases st₁ with
    | run s₁ a₁ =>
      cases st₂ with
      | run s₂ a₂ =>
        simp only [stateCompat] at h
        simpa [extractGo] using flushRun_length_congr a₁ a₂ s₁ s₂ h
      | inBlock b₂ c₂ => exact absurd h (by simp [stateCompat])
    | inBlock b₁ c₁ =>
      cases st₂ with
      | run s₂ a₂ => exact absurd h (by simp [stateCompat])
      | inBlock b₂ c₂ => simp [extractGo]
  | cons l rest ih =>
    intro st₁ st₂ i₁ i₂ h
    cases st₁ with
    | run s₁ a₁ =>
      cases st₂ with
      | run s₂ a₂ =>
        simp only [stateCompat] at h
        cases l with
        | comment s =>
          cases a₁ with
          | nil =>
            have h₂ : a₂ = [] := h.mp rfl
            subst h₂
            simpa [extractGo] using ih (.run i₁ [s]) (.run i₂ [s]) (i₁+1) (i₂+1) (by simp [stateCompat])
          | cons x xs =>
            cases a₂ with
            | nil => exact absurd (h.mpr rfl) (by simp)
            | cons y ys =>
              simpa [extractGo] using
                ih (.run s₁ (s :: x :: xs)) (.run s₂ (s :: y :: ys)) (i₁+1) (i₂+1)
                  (by simp [stateCompat])
        | blank =>
          have h1 := flushRun_length_congr a₁ a₂ s₁ s₂ h
          have h2 := ih (.run 0 []) (.run 0 []) (i₁+1) (i₂+1) (by simp [stateCompat])
          simp [extractGo]; omega
        | code s =>
          have h1 := flushRun_length_congr a₁ a₂ s₁ s₂ h
          have h2 := ih (.run 0 []) (.run 0 []) (i₁+1) (i₂+1) (by simp [stateCompat])
          simp [extractGo]; omega
        | blockClose t =>
          have h1 := flushRun_length_congr a₁ a₂ s₁ s₂ h
          have h2 := ih (.run 0 []) (.run 0 []) (i₁+1) (i₂+1) (by simp [stateCompat])
          simp [extractGo]; omega
        | blockOpen s =>
          have h1 := flushRun_length_congr a₁ a₂ s₁ s₂ h
          have h2 := ih (.inBlock i₁ [s]) (.inBlock i₂ [s]) (i₁+1) (i₂+1) (by simp [stateCompat])
          simp [extractGo]; omega
      | inBlock b₂ c₂ => exact absurd h (by simp [stateCompat])
    | inBlock b₁ c₁ =>
      cases st₂ with
      | run s₂ a₂ => exact absurd h (by simp [stateCompat])
      | inBlock b₂ c₂ =>
        cases l with
        | comment s =>
          simpa [extractGo, Line.text] using
            ih (.inBlock b₁ (s :: c₁)) (.inBlock b₂ (s :: c₂)) (i₁+1) (i₂+1) (by simp [stateCompat])
        | blank =>
          simpa [extractGo, Line.text] using
            ih (.inBlock b₁ ("" :: c₁)) (.inBlock b₂ ("" :: c₂)) (i₁+1) (i₂+1) (by simp [stateCompat])
        | code s =>
          simpa [extractGo, Line.text] using
            ih (.inBlock b₁ (s :: c₁)) (.inBlock b₂ (s :: c₂)) (i₁+1) (i₂+1) (by simp [stateCompat])
        | blockOpen s =>
          simpa [extractGo, Line.text] using
            ih (.inBlock b₁ (s :: c₁)) (.inBlock b₂ (s :: c₂)) (i₁+1) (i₂+1) (by simp [stateCompat])
        | blockClose t =>
          have h2 := ih (.run 0 []) (.run 0 []) (i₁+1) (i₂+1) (by simp [stateCompat])
          simp [extractGo]; omega

theorem c6_count_aux :
    ∀ (pre : List Line), (∀ s, Line.blockOpen s ∉ pre) →
    ∀ (post : List Line) (a b : String) (i start : Nat) (acc : List String),
      (extractGo (pre ++ Line.comment a :: Line.comment b :: post) i (.run start acc)).1.length + 1
        = (extractGo (pre ++ Line.comment a :: Line.blank :: Line.comment b :: post) i
            (.run start acc)).1.length := by
  intro pre
  induction pre with
  | nil =>
    intro _ post a b i start acc
    cases acc with
    | nil =>
      have hc := extractGo_length_congr post (.run i [b, a]) (.run (i+1+1) [b]) (i+1+1) (i+1+1+1)
        (by simp [stateCompat])
      simp [extractGo, flushRun]; omega
    | cons x xs =>
      have hc := extractGo_length_congr post (.run start (b :: a :: x :: xs)) (.run (i+1+1) [b])
        (i+1+1) (i+1+1+1) (by simp [stateCompat])
      simp [extractGo, flushRun]; omega
  | cons l pre' ih =>
    intro hpre post a b i start acc
    have hpre' : ∀ s, Line.blockOpen s ∉ pre' :=
      fun s hs => hpre s (List.mem_cons_of_mem _ hs)
    cases l with
    | comment s =>
      cases acc with
      | nil => simpa [extractGo] using ih hpre' post a b (i+1) i [s]
      | cons x xs => simpa [extractGo] using ih hpre' post a b (i+1) start (s :: x :: xs)
    | blank =>
      have h1 := ih hpre' post a b (i+1) 0 []
      simp [extractGo]; omega
    | code s =>
      have h1 := ih hpre' post a b (i+1) 0 []
      simp [extractGo]; omega
    | blockClose t =>
      have h1 := ih hpre' post a b (i+1) 0 []
      simp [extractGo]; omega
    | blockOpen s => exact absurd (List.mem_cons_self _ _) (fun hs => hpre s hs)

/-- C6: for every input text, two adjacent `//` comment lines with no
intervening non-comment, non-blank line are extracted as one
`CommentBlock`, and inserting one blank non-comment line between them
yields two `CommentBlock`s instead: in any context whose preceding lines
contain no block-comment opener, the blank insertion yields exactly one
more block, and on the two-line input itself the extraction yields one
merged block versus two singleton blocks. -/
theorem comment_run_merge_split (pre post : List Line) (a b : String)
    (hpre : ∀ s, Line.blockOpen s ∉ pre) :
    (extract (pre ++ [.comment a, .comment b] ++ post)).1.length + 1
      = (extract (pre ++ [.comment a, .blank, .comment b] ++ post)).1.length
    ∧ extract [.comment a, .comment b] = ([⟨0, [a, b]⟩], [])
    ∧ extract [.comment a, .blank, .comment b] = ([⟨0, [a]⟩, ⟨2, [b]⟩], []) := by
  refine ⟨?_, rfl, rfl⟩
  simpa [extract, List.append_assoc, List.cons_append, List.nil_append] using
    c6_count_aux pre hpre post a b 0 0 []

/-- Witness for C6 at a concrete input: a code line, then the two comment
lines, then a trailing blank line. -/
theorem comment_run_merge_split_witness :
    (extract [Line.code "int x;", .comment "AI_PHASE: A", .comment "AI_STATUS: PARTIAL", .blank]).1.length + 1
      = (extract [Line.code "int x;", .comment "AI_PHASE: A", .blank, .comment "AI_STATUS: PARTIAL", .blank]).1.length
    ∧ extract [.comment "AI_PHASE: A", .comment "AI_STATUS: PARTIAL"]
        = ([⟨0, ["AI_PHASE: A", "AI_STATUS: PARTIAL"]⟩], [])
    ∧ extract [.comment "AI_PHASE: A", .blank, .comment "AI_STATUS: PARTIAL"]
        = ([⟨0, ["AI_PHASE: A"]⟩, ⟨2, ["AI_STATUS: PARTIAL"]⟩], []) :=
  comment_run_merge_split [Line.code "int x;"] [Line.blank] "AI_PHASE: A" "AI_STATUS: PARTIAL"
    (by intro s; simp)

/-- Modelled from the spec: whitespace characters relevant to the
`^\s*KEY:\s*VALUE$` line shape of section 4.2. -/
def isWs (c : Char) : Bool := c = ' ' || c = '\t'

/-- Modelled from the spec: strip leading and trailing whitespace from a
character list. -/
def trimChars (cs : List Char) : List Char :=
  ((cs.dropWhile isWs).reverse.dropWhile isWs).reverse

/-- Modelled from the spec: strip leading and trailing whitespace from a
string. -/
def trimS (s : String) : String := String.mk (trimChars s.toList)

/-- Modelled from the spec: characters allowed in a recognized field key —
uppercase-with-underscores (section 4.2). -/
def keyChar (c : Char) : Bool := c.isUpper || c = '_'

/-- Modelled from the spec: a field key is a nonempty
uppercase-with-underscores token (section 4.2). -/
def isKeyToken (k : String) : Bool := !k.toList.isEmpty && k.toList.all keyChar

/-- Modelled from the spec: split a character list at its first colon into
the key part and the value part. -/
def splitAtColon : List Char → Option (List Char × List Char)
  | [] => none
  | c :: rest =>
    if c = ':' then some ([], rest)
    else
      match splitAtColon rest with
      | some (k, v) => some (c :: k, v)
      | none => none

/-- Modelled from the spec: parse a `KEY: value` line into its key and its
whitespace-trimmed value, skipping leading whitespace (section 4.2). -/
def splitKV (line : String) : Option (String × String) :=
  match splitAtColon (line.toList.dropWhile isWs) with
  | some (k, v) => some (String.mk k, String.mk (trimChars v))
  | none => none

/-- Modelled from the spec: string begins with the given text. -/
def startsW (p s : String) : Bool := s.toList.take p.toList.length == p.toList

/-- Modelled from the spec: string ends with the given text. -/
def endsW (p s : String) : Bool := s.toList.reverse.take p.toList.length == p.toList.reverse

/-- Modelled from the spec: the recognized field vocabulary of the
BreadcrumbRecord data model (section 3). -/
def knownKeys : List String :=
  ["AI_PHASE", "AI_STATUS", "AI_PATTERN", "AI_STRATEGY", "AI_ASSIGNED_TO",
   "AI_PRIORITY", "AI_COMPLEXITY", "AI_DEPENDENCIES", "AI_BLOCKS", "AI_CONTEXT",
   "AI_RETRY_COUNT", "AI_MAX_RETRIES", "AI_CLAIMED_AT", "AI_TIMEOUT"]

/-- Modelled from the spec: reference-kind keys such as `REF_GITHUB_ISSUE`
or `LINUX_REF` (sections 3 and 4.2). -/
def isRefKey (k : String) : Bool := startsW "REF_" k || endsW "_REF" k

/-- Modelled from the spec: a key in the known vocabulary, including
reference kinds; everything else goes to the `extensions` mapping. -/
def isKnownKey (k : String) : Bool := knownKeys.contains k || isRefKey k

/-- Modelled from the spec: the status enumeration of a BreadcrumbRecord
(section 3). -/
inductive Status
  | NOT_STARTED
  | PARTIAL
  | IMPLEMENTED
  | FIXED
  | UNKNOWN
deriving DecidableEq, Repr

/-- Modelled from the spec: the complexity enumeration of a
BreadcrumbRecord (section 3). -/
inductive Complexity
  | LOW
  | MEDIUM
  | HIGH
  | CRITICAL
deriving DecidableEq, Repr

/-- Modelled from the spec: map a status value string to the enumeration;
values outside the enumeration yield `none` (section 4.2). -/
def statusFromString (v : String) : Option Status :=
  if v = "NOT_STARTED" then some .NOT_STARTED
  else if v = "PARTIAL" then some .PARTIAL
  else if v = "IMPLEMENTED" then some .IMPLEMENTED
  else if v = "FIXED" then some .FIXED
  else if v = "UNKNOWN" then some .UNKNOWN
  else none

/-- Modelled from the spec: map a complexity value string to the
enumeration. -/
def complexityFromString (v : String) : Option Complexity :=
  if v = "LOW" then some .LOW
  else if v = "MEDIUM" then some .MEDIUM
  else if v = "HIGH" then some .HIGH
  else if v = "CRITICAL" then some .CRITICAL
  else none

/-- Modelled from the spec: accumulate decimal digits into a number;
any non-digit character fails the parse. -/
def digitsValGo : List Char → Nat → Option Nat
  | [], acc => some acc
  | c :: rest, acc =>
    if c.isDigit then digitsValGo rest (acc * 10 + (c.toNat - 48)) else none

/-- Modelled from the spec: parse an optionally negated decimal integer
value of a numeric field such as `AI_PRIORITY`. -/
def parseIntStr (v : String) : Option Int :=
  match v.toList with
  | [] => none
  | c :: rest =>
    if c = '-' then
      match rest with
      | [] => none
      | _ => (digitsValGo rest 0).map (fun n => -(n : Int))
    else (digitsValGo (c :: rest) 0).map (fun n => (n : Int))

/-- Modelled from the spec: split a character list at commas. -/
def splitComma : List Char → List (List Char)
  | [] => [[]]
  | c :: rest =>
    if c = ',' then [] :: splitComma rest
    else
      match splitComma rest with
      | [] => [[c]]
      | g :: gs => (c :: g) :: gs

/-- Modelled from the spec: split a comma-separated list value such as
`AI_DEPENDENCIES: MEMORY_MANAGER, LLVM_INIT` into trimmed nonempty names. -/
def splitCommaStr (v : String) : List String :=
  ((splitComma v.toList).map (fun g => String.mk (trimChars g))).filter (fun s => s != "")

/-- Modelled from the spec: the structured result of parsing one
CommentBlock (section 3); `references` and `extensions` are kept as
file-ordered key/value sequences, which represent the spec's mappings
while retaining every occurrence in order (section 4.2). -/
structure BreadcrumbRecord where
  phase : Option String
  status : Option Status
  pattern : Option String
  strategy : Option String
  assignedTo : Option String
  priority : Option Int
  complexity : Option Complexity
  dependencies : List String
  blocks : List String
  context : Option (List String)
  references : List (String × String)
  retryCount : Option Int
  maxRetries : Option Int
  claimedAt : Option String
  timeout : Option String
  extensions : List (String × String)
  sourceLine : Nat
deriving DecidableEq, Repr

/-- Modelled from the spec: the record with every field absent, placed at
the given source line. -/
def emptyRecord (ln : Nat) : BreadcrumbRecord :=
  ⟨none, none, none, none, none, none, none, [], [], none, [], none, none, none, none, [], ln⟩

/-- Modelled from the spec: apply one recognized or unrecognized field
assignment to a record (section 4.2).  Unrecognized keys are preserved
verbatim in `extensions`; reference kinds accumulate in file order; a
status value outside the enumeration maps to `UNKNOWN` plus a
warning-severity Diagnostic. -/
def applyField (ln : Nat) (r : BreadcrumbRecord) (k v : String) :
    BreadcrumbRecord × List Diagnostic :=
  if !(isKnownKey k) then ({r with extensions := r.extensions ++ [(k, v)]}, [])
  else if isRefKey k then ({r with references := r.references ++ [(k, v)]}, [])
  else if k = "AI_PHASE" then ({r with phase := some v}, [])
  else if k = "AI_STATUS" then
    match statusFromString v with
    | some st => ({r with status := some st}, [])
    | none => ({r with status := some Status.UNKNOWN},
        [⟨Severity.warning, "unrecognized status value: " ++ v, ln⟩])
  else if k = "AI_PATTERN" then ({r with pattern := some v}, [])
  else if k = "AI_STRATEGY" then ({r with strategy := some v}, [])
  else if k = "AI_ASSIGNED_TO" then ({r with assignedTo := some v}, [])
  else if k = "AI_PRIORITY" then
    match parseIntStr v with
    | some n => ({r with priority := some n}, [])
    | none => (r, [⟨Severity.warning, "invalid integer value: " ++ v, ln⟩])
  else if k = "AI_COMPLEXITY" then
    match complexityFromString v with
    | some c => ({r with complexity := some c}, [])
    | none => (r, [⟨Severity.warning, "unrecognized complexity value: " ++ v, ln⟩])
  else if k = "AI_DEPENDENCIES" then
    ({r with dependencies := r.dependencies ++ splitCommaStr v}, [])
  else if k = "AI_BLOCKS" then ({r with blocks := r.blocks ++ splitCommaStr v}, [])
  else if k = "AI_RETRY_COUNT" then
    match parseIntStr v with
    | some n => ({r with retryCount := some n}, [])
    | none => (r, [⟨Severity.warning, "invalid integer value: " ++ v, ln⟩])
  else if k = "AI_MAX_RETRIES" then
    match parseIntStr v with
    | some n => ({r with maxRetries := some n}, [])
    | none => (r, [⟨Severity.warning, "invalid integer value: " ++ v, ln⟩])
  else if k = "AI_CLAIMED_AT" then ({r with claimedAt := some v}, [])
  else if k = "AI_TIMEOUT" then ({r with timeout := some v}, [])
  else if k = "AI_CONTEXT" then ({r with context := some [v]}, [])
  else ({r with extensions := r.extensions ++ [(k, v)]}, [])

/-- Modelled from the spec: the Field Parser's two parsing states — outside
any multi-line `AI_CONTEXT` region, or inside one awaiting the closing
brace with the body lines accumulated so far (the OUTSIDE /
INSIDE_AWAITING_CLOSE machine recommended in section 9). -/
inductive PState
  | normal
  | inCtx (acc : List String)
deriving DecidableEq, Repr

/-- Modelled from the spec: the Field Parser's pass over a block's
marker-stripped lines (sections 4.2 and 9).  Field lines update the
record; the line `AI_CONTEXT: {` enters the multi-line region state, which
ends at a line consisting solely of a closing brace; when end-of-block is
reached inside the region, an error-severity Diagnostic "unbalanced
context block" is recorded and the `context` field is left absent, the
fields parsed before the region being unaffected; non-field lines are
skipped silently. -/
def parseGo (ln : Nat) : List String → PState → BreadcrumbRecord → List Diagnostic →
    BreadcrumbRecord × List Diagnostic
  | [], .normal, r, ds => (r, ds)
  | [], .inCtx _, r, ds =>
      (r, ds ++ [⟨Severity.error, "unbalanced context block", ln⟩])
  | line :: rest, .normal, r, ds =>
    match splitKV line with
    | none => parseGo ln rest .normal r ds
    | some (k, v) =>
      if isKeyToken k then
        if k = "AI_CONTEXT" ∧ v = "\x7b" then parseGo ln rest (.inCtx []) r ds
        else
          let p := applyField ln r k v
          parseGo ln rest .normal p.1 (ds ++ p.2)
      else parseGo ln rest .normal r ds
  | line :: rest, .inCtx acc, r, ds =>
    if trimChars line.toList = ['\x7d'] then
      parseGo ln rest .normal {r with context := some acc} ds
    else parseGo ln rest (.inCtx (acc ++ [line])) r ds

/-- Modelled from the spec: parse a block's marker-stripped lines from the
outside state with an empty record located at the block's start line. -/
def parseLines (ln : Nat) (lines : List String) : BreadcrumbRecord × List Diagnostic :=
  parseGo ln lines .normal (emptyRecord ln) []

/-- Modelled from the spec: whether a line is a field assignment with a key
from the recognized vocabulary. -/
def hasKnownField (line : String) : Bool :=
  match splitKV line with
  | some (k, _) => isKeyToken k && isKnownKey k
  | none => false

/-- Modelled from the spec: the Field Parser's contract (section 4.2) —
either a BreadcrumbRecord with its diagnostics, or the decision that the
block carries no recognized fields and is silently skipped. -/
def parseBlock (b : CommentBlock) : Option (BreadcrumbRecord × List Diagnostic) :=
  if b.content.any hasKnownField then some (parseLines b.startLine b.content)
  else none

theorem keyChar_not_ws (c : Char) (h : keyChar c = true) : isWs c = false := by
  cases hw : isWs c
  · rfl
  · exfalso
    have hor : c = ' ' ∨ c = '\t' := by simpa [isWs] using hw
    rcases hor with h' | h' <;> subst h' <;> exact absurd h (by decide)

theorem keyChar_ne_colon (c : Char) (h : keyChar c = true) : ¬ c = ':' :=
  fun h' => by subst h'; exact absurd h (by decide)

theorem splitAtColon_append :
    ∀ (k : List Char), (∀ c ∈ k, keyChar c = true) →
    ∀ (v : List Char), splitAtColon (k ++ ':' :: v) = some (k, v) := by
  intro k
  induction k with
  | nil => intro _ v; simp [splitAtColon]
  | cons c k' ih =>
    intro h v
    have hc := h c (List.mem_cons_self _ _)
    have h' : ∀ x ∈ k', keyChar x = true := fun x hx => h x (List.mem_cons_of_mem _ hx)
    simp [splitAtColon, keyChar_ne_colon c hc, ih h' v]

theorem dropWhile_isWs_keyHead (k rest : List Char) (hne : k ≠ [])
    (h : ∀ c ∈ k, keyChar c = true) : (k ++ rest).dropWhile isWs = k ++ rest := by
  cases k with
  | nil => exact absurd rfl hne
  | cons c k' =>
    have hc := keyChar_not_ws c (h c (List.mem_cons_self _ _))
    simp only [List.cons_append]
    exact List.dropWhile_cons_of_neg (by simp [hc])

theorem trimChars_cons_ws (l : List Char) : trimChars (' ' :: l) = trimChars l := by
  unfold trimChars
  rw [List.dropWhile_cons_of_pos (by decide)]

theorem isKeyToken_spec (k : String) (h : isKeyToken k = true) :
    k.toList ≠ [] ∧ ∀ c ∈ k.toList, keyChar c = true := by
  unfold isKeyToken at h
  rw [Bool.and_eq_true] at h
  obtain ⟨h1, h2⟩ := h
  refine ⟨?_, fun c hc => List.all_eq_true.mp h2 c hc⟩
  intro he
  rw [he] at h1
  simp at h1

theorem splitKV_serial (k v : String) (hk : isKeyToken k = true) :
    splitKV (k ++ ": " ++ v) = some (k, trimS v) := by
  obtain ⟨hne, hall⟩ := isKeyToken_spec k hk
  have hlist : (k ++ ": " ++ v).toList = k.toList ++ ':' :: ' ' :: v.toList := by
    show (k ++ ": " ++ v).data = k.data ++ ':' :: ' ' :: v.data
    simp [String.data_append]
  unfold splitKV
  rw [hlist, dropWhile_isWs_keyHead k.toList (':' :: ' ' :: v.toList) hne hall,
    splitAtColon_append k.toList hall (' ' :: v.toList)]
  show some (String.mk k.data, String.mk (trimChars (' ' :: v.data))) = some (k, trimS v)
  rw [trimChars_cons_ws]
  rfl

theorem dropWhile_isWs_idem (l : List Char) :
    (l.dropWhile isWs).dropWhile isWs = l.dropWhile isWs := by
  induction l with
  | nil => simp
  | cons c rest ih =>
    cases hc : isWs c with
    | true => rw [List.dropWhile_cons_of_pos hc]; exact ih
    | false =>
      rw [List.dropWhile_cons_of_neg (by simp [hc]), List.dropWhile_cons_of_neg (by simp [hc])]

theorem dropWhile_head?_false (p : Char → Bool) (l : List Char) (c : Char)
    (h : (l.dropWhile p).head? = some c) : p c = false := by
  have hm := List.head?_dropWhile_not p l
  rw [h] at hm
  exact hm

theorem trimChars_head_not_ws (l : List Char) (c : Char) (cs : List Char)
    (h : trimChars l = c :: cs) : isWs c = false := by
  unfold trimChars at h
  have hsuf : (l.dropWhile isWs).reverse.dropWhile isWs <:+ (l.dropWhile isWs).reverse :=
    List.dropWhile_suffix isWs
  have hpre : ((l.dropWhile isWs).reverse.dropWhile isWs).reverse <+: l.dropWhile isWs := by
    have := (List.reverse_prefix).mpr hsuf
    simpa using this
  rw [h] at hpre
  obtain ⟨t, ht⟩ := hpre
  apply dropWhile_head?_false isWs l c
  rw [← ht]
  simp

theorem trimChars_idem (l : List Char) : trimChars (trimChars l) = trimChars l := by
  have hA : (trimChars l).dropWhile isWs = trimChars l := by
    cases hr : trimChars l with
    | nil => simp
    | cons c cs =>
      exact List.dropWhile_cons_of_neg (by simp [trimChars_head_not_ws l c cs hr])
  show ((((trimChars l).dropWhile isWs).reverse).dropWhile isWs).reverse = trimChars l
  rw [hA]
  show (((((l.dropWhile isWs).reverse).dropWhile isWs).reverse).reverse.dropWhile isWs).reverse
      = trimChars l
  rw [List.reverse_reverse, dropWhile_isWs_idem]
  rfl

theorem trimS_idem (s : String) : trimS (trimS s) = trimS s := by
  show String.mk (trimChars (trimChars s.data)) = String.mk (trimChars s.data)
  rw [trimChars_idem]

theorem splitKV_val_trimmed (line k v : String) (h : splitKV line = some (k, v)) :
    trimS v = v := by
  unfold splitKV at h
  cases hs : splitAtColon (line.toList.dropWhile isWs) with
  | none => rw [hs] at h; simp at h
  | some p =>
    obtain ⟨kc, vc⟩ := p
    rw [hs] at h
    simp only [Option.some.injEq, Prod.mk.injEq] at h
    obtain ⟨hk, hv⟩ := h
    subst hv
    show String.mk (trimChars (String.mk (trimChars vc)).data) = String.mk (trimChars vc)
    rw [show (String.mk (trimChars vc)).data = trimChars vc from rfl, trimChars_idem]

theorem applyField_unknown (ln : Nat) (r : BreadcrumbRecord) (k v : String)
    (hk : isKnownKey k = false) :
    applyField ln r k v = ({r with extensions := r.extensions ++ [(k, v)]}, []) := by
  simp [applyField, hk]

/-- Modelled from the spec: serialize an `extensions` mapping back to the
comment text it was parsed from — one `KEY: value` line per entry
(section 4.2). -/
def serializeExtensions (ext : List (String × String)) : List String :=
  ext.map (fun kv => kv.1 ++ ": " ++ kv.2)

/-- Modelled from the spec: an `extensions` entry as the Field Parser
creates it — a nonempty uppercase-with-underscores key outside the known
vocabulary, with a whitespace-trimmed value (section 4.2). -/
def wfExtEntry (kv : String × String) : Prop :=
  isKeyToken kv.1 = true ∧ isKnownKey kv.1 = false ∧ trimS kv.2 = kv.2

theorem extensions_roundtrip_aux :
    ∀ (ext : List (String × String)), (∀ kv ∈ ext, wfExtEntry kv) →
    ∀ (ln : Nat) (r : BreadcrumbRecord) (ds : List Diagnostic),
      (parseGo ln (serializeExtensions ext) .normal r ds).1.extensions
        = r.extensions ++ ext := by
  intro ext
  induction ext with
  | nil => intro _ ln r ds; simp [serializeExtensions, parseGo]
  | cons kv ext' ih =>
    intro h ln r ds
    have h' : ∀ x ∈ ext', wfExtEntry x := fun x hx => h x (List.mem_cons_of_mem _ hx)
    obtain ⟨k, v⟩ := kv
    obtain ⟨htok₀, hunk₀, htrim₀⟩ := h (k, v) (List.mem_cons_self _ _)
    have htok : isKeyToken k = true := htok₀
    have hunk : isKnownKey k = false := hunk₀
    have htrim : trimS v = v := htrim₀
    have hne : ¬(k = "AI_CONTEXT" ∧ v = "\x7b") := by
      intro hand
      obtain ⟨h1, h2⟩ := hand
      subst h1
      exact absurd hunk (by decide)
    have hkv : splitKV (k ++ ": " ++ v) = some (k, v) := by
      rw [splitKV_serial k v htok]
      exact congrArg _ (congrArg _ htrim)
    show (parseGo ln ((k ++ ": " ++ v) :: serializeExtensions ext') .normal r ds).1.extensions
        = r.extensions ++ (k, v) :: ext'
    rw [parseGo, hkv]
    simp only [htok, if_true, if_neg hne, applyField_unknown ln r k v hunk]
    rw [ih h' ln ({r with extensions := r.extensions ++ [(k, v)]}) (ds ++ [])]
    simp

theorem applyField_known_extensions (ln : Nat) (r : BreadcrumbRecord) (k v : String)
    (hknown : isKnownKey k = true) :
    (applyField ln r k v).1.extensions = r.extensions := by
  unfold applyField
  rw [if_neg (show ¬((!isKnownKey k) = true) by simp [hknown])]
  by_cases h1 : isRefKey k = true
  · rw [if_pos h1]
  · rw [if_neg h1]
    by_cases h2 : k = "AI_PHASE"
    · rw [if_pos h2]
    · rw [if_neg h2]
      by_cases h3 : k = "AI_STATUS"
      · rw [if_pos h3]; cases statusFromString v <;> rfl
      · rw [if_neg h3]
        by_cases h4 : k = "AI_PATTERN"
        · rw [if_pos h4]
        · rw [if_neg h4]
          by_cases h5 : k = "AI_STRATEGY"
          · rw [if_pos h5]
          · rw [if_neg h5]
            by_cases h6 : k = "AI_ASSIGNED_TO"
            · rw [if_pos h6]
            · rw [if_neg h6]
              by_cases h7 : k = "AI_PRIORITY"
              · rw [if_pos h7]; cases parseIntStr v <;> rfl
              · rw [if_neg h7]
                by_cases h8 : k = "AI_COMPLEXITY"
                · rw [if_pos h8]; cases complexityFromString v <;> rfl
                · rw [if_neg h8]
                  by_cases h9 : k = "AI_DEPENDENCIES"
                  · rw [if_pos h9]
                  · rw [if_neg h9]
                    by_cases h10 : k = "AI_BLOCKS"
                    · rw [if_pos h10]
                    · rw [if_neg h10]
                      by_cases h11 : k = "AI_RETRY_COUNT"
                      · rw [if_pos h11]; cases parseIntStr v <;> rfl
                      · rw [if_neg h11]
                        by_cases h12 : k = "AI_MAX_RETRIES"
                        · rw [if_pos h12]; cases parseIntStr v <;> rfl
                        · rw [if_neg h12]
                          by_cases h13 : k = "AI_CLAIMED_AT"
                          · rw [if_pos h13]
                          · rw [if_neg h13]
                            by_cases h14 : k = "AI_TIMEOUT"
                            · rw [if_pos h14]
                            · rw [if_neg h14]
                              by_cases h15 : k = "AI_CONTEXT"
                              · rw [if_pos h15]
                              · exfalso
                                have hc : knownKeys.contains k = true := by
                                  have hor := Bool.or_eq_true _ _ |>.mp hknown
                                  rcases hor with hc | href
                                  · exact hc
                                  · exact absurd href h1
                                have hmem : k ∈ knownKeys := by
                                  simpa using hc
                                simp only [knownKeys, List.mem_cons, List.not_mem_nil,
                                  or_false] at hmem
                                rcases hmem with h | h | h | h | h | h | h | h | h | h | h | h | h | h
                                · exact h2 h
                                · exact h3 h
                                · exact h4 h
                                · exact h5 h
                                · exact h6 h
                                · exact h7 h
                                · exact h8 h
                                · exact h9 h
                                · exact h10 h
                                · exact h15 h
                                · exact h11 h
                                · exact h12 h
                                · exact h13 h
                                · exact h14 h

theorem applyField_extensions_wf (ln : Nat) (r : BreadcrumbRecord) (k v : String)
    (hk : isKeyToken k = true) (hv : trimS v = v)
    (hwf : ∀ kv ∈ r.extensions, wfExtEntry kv) :
    ∀ kv ∈ (applyField ln r k v).1.extensions, wfExtEntry kv := by
  by_cases hknown : isKnownKey k = true
  · intro kv hkv
    rw [applyField_known_extensions ln r k v hknown] at hkv
    exact hwf kv hkv
  · have hkf : isKnownKey k = false := by simpa using hknown
    rw [applyField_unknown ln r k v hkf]
    intro kv hkv
    rcases List.mem_append.mp hkv with hmem | hmem
    · exact hwf kv hmem
    · have he : kv = (k, v) := by simpa using hmem
      subst he
      exact ⟨hk, hkf, hv⟩

theorem parseGo_extensions_wf :
    ∀ (lines : List String) (ln : Nat) (st : PState) (r : BreadcrumbRecord)
      (ds : List Diagnostic), (∀ kv ∈ r.extensions, wfExtEntry kv) →
      ∀ kv ∈ (parseGo ln lines st r ds).1.extensions, wfExtEntry kv := by
  intro lines
  induction lines with
  | nil =>
    intro ln st r ds hwf
    cases st with
    | normal => simpa [parseGo] using hwf
    | inCtx acc => simpa [parseGo] using hwf
  | cons line rest ih =>
    intro ln st r ds hwf
    cases st with
    | inCtx acc =>
      by_cases hc : trimChars line.toList = ['\x7d']
      · simp only [parseGo, if_pos hc]
        exact ih ln .normal _ ds hwf
      · simp only [parseGo, if_neg hc]
        exact ih ln (.inCtx (acc ++ [line])) r ds hwf
    | normal =>
      cases hs : splitKV line with
      | none =>
        simp only [parseGo, hs]
        exact ih ln .normal r ds hwf
      | some p =>
        obtain ⟨k, v⟩ := p
        simp only [parseGo, hs]
        by_cases htok : isKeyToken k = true
        · rw [if_pos htok]
          by_cases hctx : k = "AI_CONTEXT" ∧ v = "\x7b"
          · rw [if_pos hctx]
            exact ih ln (.inCtx []) r ds hwf
          · rw [if_neg hctx]
            have hvtrim : trimS v = v := splitKV_val_trimmed line k v hs
            exact ih ln .normal _ _ (applyField_extensions_wf ln r k v htok hvtrim hwf)
        · rw [if_neg htok]
          exact ih ln .normal r ds hwf

/-- C7: for every BreadcrumbRecord whose `extensions` entries are as the
Field Parser creates them (unrecognized well-shaped keys with trimmed
values), serializing the `extensions` mapping back to comment text and
re-parsing that literal text yields an identical `extensions` mapping; and
every record the parser produces has its `extensions` entries in exactly
that shape, so the parse step is idempotent under this round-trip. -/
theorem extensions_roundtrip :
    (∀ (ext : List (String × String)), (∀ kv ∈ ext, wfExtEntry kv) →
      ∀ (ln : Nat), (parseLines ln (serializeExtensions ext)).1.extensions = ext)
    ∧ (∀ (ln : Nat) (lines : List String),
        ∀ kv ∈ (parseLines ln lines).1.extensions, wfExtEntry kv) := by
  constructor
  · intro ext h ln
    have hr := extensions_roundtrip_aux ext h ln (emptyRecord ln) []
    simpa [parseLines, emptyRecord] using hr
  · intro ln lines
    exact parseGo_extensions_wf lines ln .normal (emptyRecord ln) [] (by simp [emptyRecord])

/-- Witness for C7 at a concrete extensions mapping taken from the demo
files' unrecognized keys. -/
theorem extensions_roundtrip_witness :
    (∀ kv ∈ [("AI_BOUNTY", "$100"), ("HUMAN_OVERRIDE", "Manual fix applied")],
      wfExtEntry kv)
    ∧ (parseLines 3 (serializeExtensions
          [("AI_BOUNTY", "$100"), ("HUMAN_OVERRIDE", "Manual fix applied")])).1.extensions
        = [("AI_BOUNTY", "$100"), ("HUMAN_OVERRIDE", "Manual fix applied")] := by
  have hwf : ∀ kv ∈ [("AI_BOUNTY", "$100"), ("HUMAN_OVERRIDE", "Manual fix applied")],
      wfExtEntry kv := by
    intro kv hkv
    rcases List.mem_cons.mp hkv with he | hkv'
    · subst he; exact ⟨by decide, by decide, by decide⟩
    · have he : kv = ("HUMAN_OVERRIDE", "Manual fix applied") := by simpa using hkv'
      subst he; exact ⟨by decide, by decide, by decide⟩
  exact ⟨hwf, extensions_roundtrip.1 _ hwf 3⟩

/-- C4: for every comment block whose `AI_STATUS` value is not in the
recognized status enumeration, the Field Parser produces a record whose
status field is `UNKNOWN` together with exactly one warning-severity
Diagnostic "unrecognized status value", while the other fields of the
block, such as the phase, are still parsed. -/
theorem unrecognized_status_unknown (ln : Nat) (ph v : String)
    (hv : statusFromString (trimS v) = none) :
    parseLines ln ["AI_PHASE: " ++ ph, "AI_STATUS: " ++ v]
      = ({emptyRecord ln with phase := some (trimS ph), status := some Status.UNKNOWN},
         [⟨Severity.warning, "unrecognized status value: " ++ trimS v, ln⟩]) := by
  have h1 : splitKV ("AI_PHASE: " ++ ph) = some ("AI_PHASE", trimS ph) :=
    splitKV_serial "AI_PHASE" ph (by decide)
  have h2 : splitKV ("AI_STATUS: " ++ v) = some ("AI_STATUS", trimS v) :=
    splitKV_serial "AI_STATUS" v (by decide)
  have e1 : isKeyToken "AI_PHASE" = true := by decide
  have e2 : isKeyToken "AI_STATUS" = true := by decide
  have n1 : ¬("AI_PHASE" = "AI_CONTEXT" ∧ trimS ph = "\x7b") :=
    fun h => absurd h.1 (by decide)
  have n2 : ¬("AI_STATUS" = "AI_CONTEXT" ∧ trimS v = "\x7b") :=
    fun h => absurd h.1 (by decide)
  have k1 : isKnownKey "AI_PHASE" = true := by decide
  have r1 : isRefKey "AI_PHASE" = false := by decide
  have k2 : isKnownKey "AI_STATUS" = true := by decide
  have r2 : isRefKey "AI_STATUS" = false := by decide
  have a1 : applyField ln (emptyRecord ln) "AI_PHASE" (trimS ph)
      = ({emptyRecord ln with phase := some (trimS ph)}, []) := by
    simp [applyField, k1, r1]
  have a2 : applyField ln ({emptyRecord ln with phase := some (trimS ph)}) "AI_STATUS" (trimS v)
      = ({emptyRecord ln with phase := some (trimS ph), status := some Status.UNKNOWN},
         [⟨Severity.warning, "unrecognized status value: " ++ trimS v, ln⟩]) := by
    simp [applyField, k2, r2, hv]
  simp only [parseLines, parseGo, h1, h2, e1, if_true, if_neg n1, if_neg n2, a1, a2, e2]
  simp

/-- Witness for C4 at the spec's own scenario: phase `X` with the bogus
status value `BOGUS`. -/
theorem unrecognized_status_unknown_witness :
    parseLines 0 ["AI_PHASE: X", "AI_STATUS: BOGUS"]
      = ({emptyRecord 0 with phase := some "X", status := some Status.UNKNOWN},
         [⟨Severity.warning, "unrecognized status value: BOGUS", 0⟩]) :=
  (unrecognized_status_unknown 0 "X" "BOGUS" (by decide)).trans (by decide)

/-- Modelled from the spec: the Schema Validator (section 4.3) — returns
the record unchanged, augmented with zero or more Diagnostics; it never
discards or mutates a record.  Rules embedded here: missing `AI_PHASE` is
an error; `priority` outside [0,10] is a warning; `retryCount` exceeding
`maxRetries` is an error; `AI_ASSIGNED_TO` without `AI_CLAIMED_AT` is a
warning. -/
def validate (r : BreadcrumbRecord) : BreadcrumbRecord × List Diagnostic :=
  (r,
    (match r.phase with
     | none => [⟨Severity.error, "missing AI_PHASE", r.sourceLine⟩]
     | some _ => [])
    ++ (match r.priority with
        | some p =>
          if p < 0 ∨ 10 < p then [⟨Severity.warning, "priority out of range", r.sourceLine⟩]
          else []
        | none => [])
    ++ (match r.retryCount, r.maxRetries with
        | some rc, some mr =>
          if mr < rc then [⟨Severity.error, "retryCount exceeds maxRetries", r.sourceLine⟩]
          else []
        | _, _ => [])
    ++ (match r.assignedTo, r.claimedAt with
        | some _, none => [⟨Severity.warning, "assigned without claim timestamp", r.sourceLine⟩]
        | _, _ => []))

/-- Modelled from the spec: clamp a priority to the nearest bound of
[0,10]; used for indexing purposes only (section 4.3). -/
def clampPriority (p : Int) : Int := max 0 (min 10 p)

/-- Modelled from the spec: the priority key the Reporter indexes a record
under — the clamped value, while the record itself keeps its original
priority (section 4.3). -/
def indexPriority (r : BreadcrumbRecord) : Option Int := r.priority.map clampPriority

/-- Modelled from the spec: every phase name observed in the corpus. -/
def allPhases (rs : List BreadcrumbRecord) : List String :=
  rs.filterMap (fun r => r.phase)

/-- Modelled from the spec: the corpus-wide directed dependency graph — one
edge from a record's phase to each phase it depends on (section 4.3). -/
def depEdges (rs : List BreadcrumbRecord) : List (String × String) :=
  rs.flatMap (fun r =>
    match r.phase with
    | some p => r.dependencies.map (fun d => (p, d))
    | none => [])

/-- Modelled from the spec: bounded reachability along dependency edges —
`canReach es n a b` holds when a path of length between 1 and `n` leads
from `a` to `b`. -/
def canReach (es : List (String × String)) : Nat → String → String → Bool
  | 0, _, _ => false
  | n+1, a, b => es.any (fun e => e.1 == a && (e.2 == b || canReach es n e.2 b))

/-- Modelled from the spec: a phase lies on a dependency cycle when it can
reach itself; a simple cycle has length at most the number of edges, so
fuel `es.length + 1` is enough. -/
def onCycle (es : List (String × String)) (p : String) : Bool :=
  canReach es (es.length + 1) p p

/-- Modelled from the spec: the phases of the corpus that lie on some
dependency cycle, in first-observed order without duplicates. -/
def cyclicPhases (rs : List BreadcrumbRecord) : List String :=
  (allPhases rs).dedup.filter (fun p => onCycle (depEdges rs) p)

/-- Modelled from the spec: the single cycle Diagnostic's message, listing
every phase in the offending cycles (section 7). -/
def mkCycleMessage (ps : List String) : String :=
  "circular dependency: " ++ String.intercalate ", " ps

/-- Modelled from the spec: the corpus-wide cycle check — reported once,
listing every phase on a cycle (sections 4.3 and 7). -/
def cycleDiags (rs : List BreadcrumbRecord) : List Diagnostic :=
  if cyclicPhases rs = [] then []
  else [⟨Severity.error, mkCycleMessage (cyclicPhases rs), 0⟩]

/-- Modelled from the spec: info-severity diagnostics for dependency or
blocks references to phases not observed anywhere in the corpus
(section 4.3). -/
def danglingDiags (rs : List BreadcrumbRecord) : List Diagnostic :=
  rs.flatMap (fun r =>
    ((r.dependencies ++ r.blocks).filter (fun d => !((allPhases rs).contains d))).map
      (fun d => ⟨Severity.info, "dangling phase reference: " ++ d, r.sourceLine⟩))

/-- Modelled from the spec: the Reporter's frozen result — every validated
record (append-only, none discarded) plus the full diagnostic list
(section 4.4). -/
structure Report where
  records : List BreadcrumbRecord
  diagnostics : List Diagnostic
deriving DecidableEq, Repr

/-- Modelled from the spec: assemble the aggregate report from the
corpus's records and the upstream extraction/parsing diagnostics: per-record
validation, corpus-wide dangling-reference and cycle checks (sections 4.3
and 4.4). -/
def mkReport (rs : List BreadcrumbRecord) (ds0 : List Diagnostic) : Report :=
  ⟨rs, ds0 ++ rs.flatMap (fun r => (validate r).2) ++ danglingDiags rs ++ cycleDiags rs⟩

/-- Modelled from the spec: the Reporter's by-phase query (section 4.4). -/
def byPhase (rep : Report) (p : String) : List BreadcrumbRecord :=
  rep.records.filter (fun r => r.phase == some p)

/-- Modelled from the spec: the per-file pipeline — extract blocks, parse
each relevant block, collect records and diagnostics (section 2). -/
def scanFile (ls : List Line) : List BreadcrumbRecord × List Diagnostic :=
  let p := extract ls
  (p.1.filterMap (fun b => (parseBlock b).map (fun q => q.1)),
   p.2 ++ p.1.flatMap (fun b =>
     match parseBlock b with
     | some q => q.2
     | none => []))

/-- Modelled from the spec: the whole-corpus pipeline — per-file scans
joined, then the aggregate report (sections 2 and 5). -/
def scanCorpus (files : List (List Line)) : Report :=
  mkReport (files.flatMap (fun f => (scanFile f).1)) (files.flatMap (fun f => (scanFile f).2))

theorem extractGo_inBlock_noClose :
    ∀ (rest : List Line), (∀ t, Line.blockClose t ∉ rest) →
    ∀ (i bs : Nat) (acc : List String),
      extractGo rest i (.inBlock bs acc)
        = ([], [⟨Severity.error, "unterminated block comment", bs⟩]) := by
  intro rest
  induction rest with
  | nil => intro _ i bs acc; rfl
  | cons l rest' ih =>
    intro h i bs acc
    have h' : ∀ t, Line.blockClose t ∉ rest' :=
      fun t ht => h t (List.mem_cons_of_mem _ ht)
    cases l with
    | comment s => simpa [extractGo, Line.text] using ih h' (i+1) bs (s :: acc)
    | blank => simpa [extractGo, Line.text] using ih h' (i+1) bs ("" :: acc)
    | code s => simpa [extractGo, Line.text] using ih h' (i+1) bs (s :: acc)
    | blockOpen s => simpa [extractGo, Line.text] using ih h' (i+1) bs (s :: acc)
    | blockClose t => exact absurd (List.mem_cons_self _ _) (fun ht => h t ht)

theorem c5_aux :
    ∀ (pre : List Line), (∀ u, Line.blockOpen u ∉ pre) →
    ∀ (rest : List Line), (∀ t, Line.blockClose t ∉ rest) →
    ∀ (s : String) (i start : Nat) (acc : List String),
      extractGo (pre ++ Line.blockOpen s :: rest) i (.run start acc)
        = ((extractGo pre i (.run start acc)).1,
           [⟨Severity.error, "unterminated block comment", i + pre.length⟩]) := by
  intro pre
  induction pre with
  | nil =>
    intro _ rest hrest s i start acc
    simp [extractGo, extractGo_inBlock_noClose rest hrest (i+1) i [s]]
  | cons l pre' ih =>
    intro hpre rest hrest s i start acc
    have hpre' : ∀ u, Line.blockOpen u ∉ pre' :=
      fun u hu => hpre u (List.mem_cons_of_mem _ hu)
    cases l with
    | comment c =>
      cases acc with
      | nil =>
        have h1 := ih hpre' rest hrest s (i+1) i [c]
        simp [extractGo, h1]; omega
      | cons x xs =>
        have h1 := ih hpre' rest hrest s (i+1) start (c :: x :: xs)
        simp [extractGo, h1]; omega
    | blank =>
      have h1 := ih hpre' rest hrest s (i+1) 0 []
      simp [extractGo, h1]; omega
    | code c =>
      have h1 := ih hpre' rest hrest s (i+1) 0 []
      simp [extractGo, h1]; omega
    | blockClose t =>
      have h1 := ih hpre' rest hrest s (i+1) 0 []
      simp [extractGo, h1]; omega
    | blockOpen u => exact absurd (List.mem_cons_self _ _) (fun hu => hpre u hu)

/-- C5: for every input file containing a block-comment opener with no
matching closer before end-of-file, the Extractor reports exactly one
error-severity Diagnostic "unterminated block comment" located at the
opener's line, and extraction stops for that file: the blocks produced are
exactly those of the text before the opener, so no later text of the same
file contributes any block. -/
theorem unterminated_block_comment_stops_file (pre rest : List Line) (s : String)
    (hpre : ∀ u, Line.blockOpen u ∉ pre) (hrest : ∀ t, Line.blockClose t ∉ rest) :
    extract (pre ++ Line.blockOpen s :: rest)
      = ((extract pre).1,
         [⟨Severity.error, "unterminated block comment", pre.length⟩]) := by
  simpa [extract] using c5_aux pre hpre rest hrest s 0 0 []

/-- Witness for C5 at a concrete input: one comment block, then an
unterminated opener followed by further lines that produce no blocks. -/
theorem unterminated_block_comment_stops_file_witness :
    extract [Line.comment "AI_PHASE: A", Line.blockOpen "hdr", Line.code "int f;", Line.comment "later"]
      = ([⟨0, ["AI_PHASE: A"]⟩],
         [⟨Severity.error, "unterminated block comment", 1⟩]) :=
  (unterminated_block_comment_stops_file [Line.comment "AI_PHASE: A"]
      [Line.code "int f;", Line.comment "later"] "hdr"
      (by intro u; simp) (by intro t; simp)).trans (by decide)

/-- C2: for every BreadcrumbRecord in which both retryCount and maxRetries
are present and retryCount exceeds maxRetries, validation produces an
error-severity Diagnostic, the record itself is returned unchanged
(flagged, not discarded), and the record remains present in the aggregate
report, whose diagnostics contain the error. -/
theorem retry_exceeds_max_flagged_retained (r : BreadcrumbRecord) (rc mr : Int)
    (h1 : r.retryCount = some rc) (h2 : r.maxRetries = some mr) (h3 : mr < rc) :
    (∃ d ∈ (validate r).2,
        d.severity = Severity.error ∧ d.message = "retryCount exceeds maxRetries")
    ∧ (validate r).1 = r
    ∧ (∀ (rs : List BreadcrumbRecord) (ds0 : List Diagnostic), r ∈ rs →
        r ∈ (mkReport rs ds0).records
        ∧ ∃ d ∈ (mkReport rs ds0).diagnostics,
            d.severity = Severity.error ∧ d.message = "retryCount exceeds maxRetries") := by
  have hd : (⟨Severity.error, "retryCount exceeds maxRetries", r.sourceLine⟩ : Diagnostic)
      ∈ (validate r).2 := by
    simp [validate, h1, h2, h3]
  refine ⟨⟨⟨Severity.error, "retryCount exceeds maxRetries", r.sourceLine⟩, hd, rfl, rfl⟩,
    rfl, ?_⟩
  intro rs ds0 hmem
  refine ⟨hmem,
    ⟨⟨Severity.error, "retryCount exceeds maxRetries", r.sourceLine⟩, ?_, rfl, rfl⟩⟩
  show (⟨Severity.error, "retryCount exceeds maxRetries", r.sourceLine⟩ : Diagnostic)
      ∈ (mkReport rs ds0).diagnostics
  unfold mkReport
  refine List.mem_append.mpr (Or.inl (List.mem_append.mpr (Or.inl ?_)))
  exact List.mem_append.mpr (Or.inr (List.mem_flatMap.mpr ⟨r, hmem, hd⟩))

/-- Sample record for the C2 witness: the NETWORK_STACK example with its
retry count raised past its maximum. -/
def sampleRetryRecord : BreadcrumbRecord :=
  { emptyRecord 57 with
      phase := some "NETWORK_STACK"
      status := some Status.PARTIAL
      assignedTo := some "agent_network_002"
      claimedAt := some "2025-10-15T15:00:00Z"
      retryCount := some 4
      maxRetries := some 3 }

/-- Witness for C2 at retryCount 4, maxRetries 3. -/
theorem retry_exceeds_max_flagged_retained_witness :
    (∃ d ∈ (validate sampleRetryRecord).2,
        d.severity = Severity.error ∧ d.message = "retryCount exceeds maxRetries")
    ∧ (validate sampleRetryRecord).1 = sampleRetryRecord
    ∧ sampleRetryRecord ∈ (mkReport [sampleRetryRecord] []).records
    ∧ ∃ d ∈ (mkReport [sampleRetryRecord] []).diagnostics,
        d.severity = Severity.error ∧ d.message = "retryCount exceeds maxRetries" := by
  have h := retry_exceeds_max_flagged_retained sampleRetryRecord 4 3 rfl rfl (by decide)
  have h2 := h.2.2 [sampleRetryRecord] [] (List.mem_cons_self _ _)
  exact ⟨h.1, h.2.1, h2.1, h2.2⟩

/-- C8: for every record whose priority lies outside [0,10], validation
emits a warning-severity Diagnostic; the record returned by validation is
unchanged, so its stored priority keeps the original out-of-range value;
and the Reporter's index key is the value clamped to the nearest bound. -/
theorem priority_out_of_range_clamped_for_index (r : BreadcrumbRecord) (p : Int)
    (h1 : r.priority = some p) (h2 : p < 0 ∨ 10 < p) :
    (∃ d ∈ (validate r).2,
        d.severity = Severity.warning ∧ d.message = "priority out of range")
    ∧ (validate r).1 = r
    ∧ (validate r).1.priority = some p
    ∧ indexPriority r = some (clampPriority p)
    ∧ (p < 0 → clampPriority p = 0)
    ∧ (10 < p → clampPriority p = 10) := by
  have hd : (⟨Severity.warning, "priority out of range", r.sourceLine⟩ : Diagnostic)
      ∈ (validate r).2 := by
    simp [validate, h1, h2]
  refine ⟨⟨⟨Severity.warning, "priority out of range", r.sourceLine⟩, hd, rfl, rfl⟩,
    rfl, h1, by simp [indexPriority, h1], ?_, ?_⟩
  · intro hp
    have hmin : min 10 p = p := min_eq_right (by omega)
    unfold clampPriority
    rw [hmin]
    exact max_eq_left (by omega)
  · intro hp
    have hmin : min 10 p = (10 : Int) := min_eq_left (by omega)
    unfold clampPriority
    rw [hmin]
    exact max_eq_right (by omega)

theorem canReach_succ (es : List (String × String)) (n : Nat) (a b : String) :
    canReach es (n+1) a b
      = es.any (fun e => e.1 == a && (e.2 == b || canReach es n e.2 b)) := rfl

theorem canReach_step (es : List (String × String)) (n : Nat) (a c b : String)
    (hac : (a, c) ∈ es) (h : c = b ∨ canReach es n c b = true) :
    canReach es (n+1) a b = true := by
  rw [canReach_succ]
  apply List.any_eq_true.mpr
  refine ⟨(a, c), hac, ?_⟩
  simp only [beq_self_eq_true, Bool.true_and]
  rcases h with h | h
  · subst h; simp
  · rw [h]; simp

theorem canReach_two (es : List (String × String)) (a b : String)
    (hab : (a, b) ∈ es) (hba : (b, a) ∈ es) (n : Nat) (hn : 2 ≤ n) :
    canReach es n a a = true := by
  obtain ⟨m, rfl⟩ : ∃ m, n = m + 2 := ⟨n - 2, by omega⟩
  have inner : canReach es (m+1) b a = true := canReach_step es m b a a hba (Or.inl rfl)
  exact canReach_step es (m+1) a b a hab (Or.inr inner)

theorem mem_depEdges (rs : List BreadcrumbRecord) (r : BreadcrumbRecord) (p d : String)
    (hr : r ∈ rs) (hp : r.phase = some p) (hd : d ∈ r.dependencies) :
    (p, d) ∈ depEdges rs := by
  unfold depEdges
  apply List.mem_flatMap.mpr
  refine ⟨r, hr, ?_⟩
  simp only [hp]
  exact List.mem_map_of_mem _ hd

theorem perm_any_eq (l₁ l₂ : List (String × String)) (q : String × String → Bool)
    (h : l₁.Perm l₂) : l₁.any q = l₂.any q := by
  cases h₁ : l₁.any q with
  | true =>
    obtain ⟨x, hx, hq⟩ := List.any_eq_true.mp h₁
    exact (List.any_eq_true.mpr ⟨x, h.mem_iff.mp hx, hq⟩).symm
  | false =>
    cases h₂ : l₂.any q with
    | false => rfl
    | true =>
      obtain ⟨x, hx, hq⟩ := List.any_eq_true.mp h₂
      have hc := List.any_eq_true.mpr ⟨x, h.mem_iff.mpr hx, hq⟩
      rw [h₁] at hc
      exact absurd hc (by simp)

theorem canReach_perm (es es' : List (String × String)) (h : es.Perm es') :
    ∀ (n : Nat) (a b : String), canReach es n a b = canReach es' n a b := by
  intro n
  induction n with
  | zero => intro a b; rfl
  | succ n ih =>
    intro a b
    rw [canReach_succ, canReach_succ]
    have hfun : (fun (e : String × String) => e.1 == a && (e.2 == b || canReach es n e.2 b))
        = (fun (e : String × String) => e.1 == a && (e.2 == b || canReach es' n e.2 b)) :=
      funext (fun e => by rw [ih])
    rw [hfun]
    exact perm_any_eq es es' _ h

theorem onCycle_perm (es es' : List (String × String)) (h : es.Perm es') (p : String) :
    onCycle es p = onCycle es' p := by
  unfold onCycle
  rw [h.length_eq, canReach_perm es es' h]

theorem cyclicPhases_mem_perm (rs rs' : List BreadcrumbRecord) (h : rs.Perm rs')
    (p : String) : p ∈ cyclicPhases rs ↔ p ∈ cyclicPhases rs' := by
  have hedges : (depEdges rs).Perm (depEdges rs') := h.flatMap_right _
  have hphases : (allPhases rs).Perm (allPhases rs') := h.filterMap _
  unfold cyclicPhases
  simp [List.mem_filter, List.mem_dedup, hphases.mem_iff, onCycle_perm _ _ hedges]

/-- C3: for every corpus containing a phase A with a dependency on B and a
phase B with a dependency on A, the corpus-wide validation produces
exactly one error-severity cycle Diagnostic, its message names both A and
B (it lists the cyclic phases, among which are A and B), the cycle
Diagnostic reaches the aggregate report, and the result is the same for
every order in which the corpus is scanned: the same single Diagnostic
arises for any permutation, over the same set of cyclic phases. -/
theorem circular_dependency_one_diagnostic
    (rs rs' : List BreadcrumbRecord) (hperm : rs.Perm rs')
    (A B : String) (rA rB : BreadcrumbRecord)
    (hrA : rA ∈ rs) (hpA : rA.phase = some A) (hdA : B ∈ rA.dependencies)
    (hrB : rB ∈ rs) (hpB : rB.phase = some B) (hdB : A ∈ rB.dependencies)
    (ds0 : List Diagnostic) :
    A ∈ cyclicPhases rs' ∧ B ∈ cyclicPhases rs'
    ∧ cycleDiags rs' = [⟨Severity.error, mkCycleMessage (cyclicPhases rs'), 0⟩]
    ∧ (∀ p, p ∈ cyclicPhases rs' ↔ p ∈ cyclicPhases rs)
    ∧ (∀ d ∈ cycleDiags rs', d ∈ (mkReport rs' ds0).diagnostics) := by
  have hrA' : rA ∈ rs' := hperm.mem_iff.mp hrA
  have hrB' : rB ∈ rs' := hperm.mem_iff.mp hrB
  have eAB : (A, B) ∈ depEdges rs' := mem_depEdges rs' rA A B hrA' hpA hdA
  have eBA : (B, A) ∈ depEdges rs' := mem_depEdges rs' rB B A hrB' hpB hdB
  have hlen : 0 < (depEdges rs').length := List.length_pos_of_mem eAB
  have hA : onCycle (depEdges rs') A = true := by
    unfold onCycle
    exact canReach_two _ A B eAB eBA _ (by omega)
  have hB : onCycle (depEdges rs') B = true := by
    unfold onCycle
    exact canReach_two _ B A eBA eAB _ (by omega)
  have hAmem : A ∈ cyclicPhases rs' := by
    unfold cyclicPhases
    exact List.mem_filter.mpr
      ⟨List.mem_dedup.mpr (List.mem_filterMap.mpr ⟨rA, hrA', hpA⟩), hA⟩
  have hBmem : B ∈ cyclicPhases rs' := by
    unfold cyclicPhases
    exact List.mem_filter.mpr
      ⟨List.mem_dedup.mpr (List.mem_filterMap.mpr ⟨rB, hrB', hpB⟩), hB⟩
  have hne : cyclicPhases rs' ≠ [] := by
    intro h
    rw [h] at hAmem
    exact absurd hAmem (List.not_mem_nil _)
  refine ⟨hAmem, hBmem, ?_, fun p => (cyclicPhases_mem_perm rs rs' hperm p).symm, ?_⟩
  · unfold cycleDiags
    rw [if_neg hne]
  · intro d hd
    unfold mkReport
    exact List.mem_append.mpr (Or.inr hd)

/-- Sample records for the C3 witness: phase A depends on B, phase B
depends on A. -/
def cycleRecordA : BreadcrumbRecord :=
  { emptyRecord 0 with phase := some "A", dependencies := ["B"] }

/-- Companion record to `cycleRecordA` for the C3 witness. -/
def cycleRecordB : BreadcrumbRecord :=
  { emptyRecord 1 with phase := some "B", dependencies := ["A"] }

/-- Witness for C3 on the two-record corpus A ↔ B. -/
theorem circular_dependency_one_diagnostic_witness :
    "A" ∈ cyclicPhases [cycleRecordA, cycleRecordB]
    ∧ "B" ∈ cyclicPhases [cycleRecordA, cycleRecordB]
    ∧ cycleDiags [cycleRecordA, cycleRecordB]
        = [⟨Severity.error, "circular dependency: A, B", 0⟩] := by
  have h := circular_dependency_one_diagnostic
    [cycleRecordA, cycleRecordB] [cycleRecordA, cycleRecordB] (List.Perm.refl _)
    "A" "B" cycleRecordA cycleRecordB
    (List.mem_cons_self _ _) rfl (by decide)
    (List.mem_cons_of_mem _ (List.mem_cons_self _ _)) rfl (by decide) []
  exact ⟨h.1, h.2.1, h.2.2.1.trans (by decide)⟩

/-- Sample record for the C8 witness: a priority of 15, outside [0,10]. -/
def samplePriorityRecord : BreadcrumbRecord :=
  { emptyRecord 12 with phase := some "MEMORY_MANAGER", priority := some 15 }

/-- Witness for C8 at priority 15: warning emitted, record keeps 15, index
key clamped to 10. -/
theorem priority_out_of_range_clamped_for_index_witness :
    (∃ d ∈ (validate samplePriorityRecord).2,
        d.severity = Severity.warning ∧ d.message = "priority out of range")
    ∧ (validate samplePriorityRecord).1.priority = some 15
    ∧ indexPriority samplePriorityRecord = some 10 := by
  have h := priority_out_of_range_clamped_for_index samplePriorityRecord 15 rfl
    (Or.inr (by decide))
  exact ⟨h.1, h.2.2.1, (h.2.2.2.1).trans (by rw [h.2.2.2.2.2 (by decide)])⟩

end Breadcrumb
